import Mathlib

/-!
Verification of the reward-scoring and pipeline glue in `src/open_r1/grpo.py`.

The file embeds the Python source shallowly:
* chat messages are structures with `role` and `content` strings;
* the regex `^<think>.*?</think><answer>.*?</answer>$` checked with
  `re.match` is embedded as an executable matcher on character lists
  (`formatCore`), together with a declarative characterisation
  (`formatSpec`) proved equivalent;
* Python floats `0.0` / `1.0` (the only reward values produced) are
  embedded as the exactly-representable rationals `0` and `1`;
* the external `parse` / `verify` calls of `math_verify` are an opaque
  oracle (`Oracle`), as the spec treats them;
* `print` output is made explicit: the effectful `accuracy_reward`
  returns the list of printed lines next to the rewards;
* indexing `completion[0]` raises in Python on an empty list, so the
  content-extraction comprehension returns `Option`.
-/

structure Message where
  role : String
  content : String
deriving DecidableEq

/-- Python `**kwargs`: an arbitrary dictionary of extra named arguments,
never inspected by either reward function. -/
abbrev KW := List (String × String)

/-! ## The format regex

Pattern of `format_reward`: `^<think>.*?</think><answer>.*?</answer>$`,
checked with `re.match` (anchored at the start; `.` does not match a
newline; `$` matches at the end of the string or just before one final
newline; laziness of `.*?` does not affect whether a match exists). -/

def tagThink : List Char := "<think>".data

def tagMid : List Char := "</think><answer>".data

def tagClose : List Char := "</answer>".data

/-- Consume a literal sequence of characters from the front. -/
def stripPre : List Char → List Char → Option (List Char)
  | [], t => some t
  | _ :: _, [] => none
  | p :: ps, c :: cs => if p = c then stripPre ps cs else none

/-- `.*?k`: either `k` succeeds here, or consume one non-newline
character and continue.  Which split the engine prefers is irrelevant
for the existence of a match. -/
def dotStarThen (k : List Char → Bool) : List Char → Bool
  | [] => k []
  | c :: cs => k (c :: cs) || (decide (c ≠ '\n') && dotStarThen k cs)

/-- `$` in Python (without `re.MULTILINE`): end of string, or just
before a newline that ends the string. -/
def tailOk (r : List Char) : Bool := decide (r = [] ∨ r = ['\n'])

/-- The whole pattern, run on the remaining characters. -/
def formatCore (t : List Char) : Bool :=
  match stripPre tagThink t with
  | none => false
  | some r1 =>
    dotStarThen (fun r2 =>
      match stripPre tagMid r2 with
      | none => false
      | some r3 =>
        dotStarThen (fun r4 =>
          match stripPre tagClose r4 with
          | none => false
          | some r5 => tailOk r5) r3) r1

/-- `re.match(pattern, content)` is truthy. -/
def formatBool (s : String) : Bool := formatCore s.data

/-- Declarative reading of the regex: the content splits as
`<think>` + a + `</think><answer>` + b + `</answer>` + tail where the
lazy-dot segments contain no newline and the tail is empty or one
newline (the `$` allowance). -/
def formatSpec (s : String) : Prop :=
  ∃ a b tl, s.data = tagThink ++ a ++ tagMid ++ b ++ tagClose ++ tl ∧
    '\n' ∉ a ∧ '\n' ∉ b ∧ (tl = [] ∨ tl = ['\n'])

/-! ## Reward functions -/

/-- `[completion[0]["content"] for completion in completions]`; `none`
when some completion has no messages (Python raises `IndexError`). -/
def firstContents : List (List Message) → Option (List String)
  | [] => some []
  | c :: cs =>
    match c.head? with
    | none => none
    | some m =>
      match firstContents cs with
      | none => none
      | some rest => some (m.content :: rest)

/-- `format_reward(completions, **kwargs)`: 1 where the first message
content matches the pattern, 0 elsewhere. -/
def format_reward (completions : List (List Message)) (_kwargs : KW) :
    Option (List ℚ) :=
  (firstContents completions).map
    (fun contents => contents.map
      (fun content => if formatBool content then (1 : ℚ) else 0))

/-- The external `math_verify` machinery, opaque to this repository:
`parseGold` is `parse(sol, extraction_mode="first_match",
extraction_config=[LatexExtractionConfig()])`, `parseAnswer` is the
`parse` call with the strict normalization config used on the completion
content, and `verify` is `verify(answer_parsed, gold_parsed)`. -/
structure Oracle (E : Type) where
  parseGold : String → List E
  parseAnswer : String → List E
  verify : List E → List E → Bool

/-- Loop body of `accuracy_reward` for one `(content, sol)` pair:
the reward together with the lines printed (Python's
`print("Failed to parse gold solution: ", sol)` joins its arguments
with a space). -/
def accStep {E : Type} (O : Oracle E) (content sol : String) :
    ℚ × List String :=
  let gold_parsed := O.parseGold sol
  if gold_parsed.length ≠ 0 then
    let answer_parsed := O.parseAnswer content
    ((if O.verify answer_parsed gold_parsed then 1 else 0), [])
  else
    (1, ["Failed to parse gold solution: " ++ " " ++ sol])

/-- `for content, sol in zip(contents, solution)`: rewards appended in
order, printed lines collected in order. -/
def accLoop {E : Type} (O : Oracle E) :
    List (String × String) → List ℚ × List String
  | [] => ([], [])
  | p :: ps =>
    let r := accStep O p.1 p.2
    let rest := accLoop O ps
    (r.1 :: rest.1, r.2 ++ rest.2)

/-- `accuracy_reward(completions, solution, **kwargs)`; the second
component of the result is the sequence of printed lines. -/
def accuracy_reward {E : Type} (O : Oracle E)
    (completions : List (List Message)) (solution : List String)
    (_kwargs : KW) : Option (List ℚ × List String) :=
  (firstContents completions).map
    (fun contents => accLoop O (contents.zip solution))

/-! ## Registry and pipeline -/

/-- Common shape of both reward functions as the trainer calls them:
dataset columns such as `solution` are passed through and land either
in the named `solution` parameter or in `**kwargs`. -/
def RewardFn : Type :=
  List (List Message) → List String → KW → Option (List ℚ × List String)

/-- `format_reward` at the registry's calling shape: the `solution`
column is ignored (in Python it is absorbed by `**kwargs`), and it
prints nothing. -/
def format_reward_fn : RewardFn :=
  fun completions _solution kwargs =>
    (format_reward completions kwargs).map (fun r => (r, []))

/-- The dict `reward_funcs_registry` as a lookup; `none` is Python's
`KeyError`. -/
def reward_funcs_registry {E : Type} (O : Oracle E) (key : String) :
    Option RewardFn :=
  if key = "accuracy" then some (accuracy_reward O)
  else if key = "format" then some format_reward_fn
  else none

/-- `[reward_funcs_registry[func] for func in reward_types]` in `main`. -/
def selectRewardFuncs {E : Type} (O : Oracle E) :
    List String → Option (List RewardFn)
  | [] => some []
  | f :: fs =>
    match reward_funcs_registry O f with
    | none => none
    | some fn =>
      match selectRewardFuncs O fs with
      | none => none
      | some rest => some (fn :: rest)

def SYSTEM_PROMPT : String :=
  "A conversation between User and Assistant. The user asks a question, and the Assistant solves it. The assistant first thinks about the reasoning process in the mind and then provides the user with the answer. The reasoning process and answer are enclosed within <think> </think> and <answer> </answer> tags, respectively, i.e., <think> reasoning process here </think><answer> answer here </answer>"

/-- A dataset row; the script reads only its `problem` column
(NuminaMath-TIR also carries a `solution` column). -/
structure RawExample where
  problem : String
  solution : String
deriving DecidableEq

/-- `make_conversation(example)["prompt"]` inside `main`. -/
def make_conversation (ex : RawExample) : List Message :=
  [⟨"system", SYSTEM_PROMPT⟩, ⟨"user", ex.problem⟩]

/-- A row after `dataset.map(make_conversation)`: the original columns
plus the new `prompt` column. -/
structure MappedExample where
  base : RawExample
  prompt : List Message
deriving DecidableEq

/-- `dataset.map(make_conversation)` viewed on the rows of one split. -/
def datasetMapConversation (ds : List RawExample) : List MappedExample :=
  ds.map (fun e => ⟨e, make_conversation e⟩)

/-- The externally visible pipeline stages of `main`, in call order. -/
inductive Event where
  | loadDataset (name : String)
  | mapConversation
  | initTrainer
  | train
  | saveModel (dir : String)
deriving DecidableEq

/-- The opaque library surface `main` drives: `load_dataset`,
`dataset.map`, the `train` / `test` split accesses, `GRPOTrainer(...)`,
`trainer.train()` and `trainer.save_model(...)`. -/
structure TrainEnv (D T : Type) where
  load_dataset : String → D
  mapConv : D → (RawExample → List Message) → D
  getTrainSplit : D → D
  getTestSplit : D → D
  mkTrainer : String → List RewardFn → D → D → T
  trainerTrain : T → T
  trainerSave : T → String → T

/-- `main(compiled_model_path, dataset_name, model_output_dir,
reward_types, training_args)` (Lean reserves the name `main`):
reward selection, dataset load, prompt reformatting, trainer
construction, training, model save; the returned trace records the
order of the external calls. -/
def mainFn {E D T A : Type} (O : Oracle E) (env : TrainEnv D T)
    (compiled_model_path dataset_name model_output_dir : String)
    (reward_types : List String) (_training_args : A) :
    Option (List RewardFn × T × List Event) :=
  match selectRewardFuncs O reward_types with
  | none => none
  | some reward_funcs =>
    let dataset := env.load_dataset dataset_name
    let dataset2 := env.mapConv dataset make_conversation
    let trainer := env.mkTrainer compiled_model_path reward_funcs
      (env.getTrainSplit dataset2) (env.getTestSplit dataset2)
    let trainer2 := env.trainerTrain trainer
    let trainer3 := env.trainerSave trainer2 model_output_dir
    some (reward_funcs, trainer3,
      [Event.loadDataset dataset_name, Event.mapConversation,
       Event.initTrainer, Event.train, Event.saveModel model_output_dir])

/-! ## Concrete instantiations used by witnesses -/

/-- A trivial dataset type / trainer type for instantiating the opaque
library surface in closed statements. -/
def envUnit : TrainEnv Unit Unit where
  load_dataset := fun _ => ()
  mapConv := fun _ _ => ()
  getTrainSplit := fun _ => ()
  getTestSplit := fun _ => ()
  mkTrainer := fun _ _ _ _ => ()
  trainerTrain := fun _ => ()
  trainerSave := fun _ _ => ()

/-- An oracle whose parser always succeeds and whose verifier always
accepts. -/
def oracleYes : Oracle Unit where
  parseGold := fun _ => [Unit.unit]
  parseAnswer := fun _ => [Unit.unit]
  verify := fun _ _ => true

/-- An oracle whose gold parser always fails. -/
def oracleNoParse : Oracle Unit where
  parseGold := fun _ => []
  parseAnswer := fun _ => []
  verify := fun _ _ => false

/-! ## Helper lemmas -/

lemma stripPre_eq_some {p t r : List Char} :
    stripPre p t = some r ↔ t = p ++ r := by
  induction p generalizing t with
  | nil => simp [stripPre]
  | cons x ps ih =>
    cases t with
    | nil => simp [stripPre]
    | cons c cs =>
      by_cases hxc : x = c
      · subst hxc
        simp [stripPre, ih]
      · simp only [stripPre, if_neg hxc]
        constructor
        · intro h; exact Option.noConfusion h
        · intro h
          exact absurd ((List.cons_eq_cons.mp h).1).symm hxc

lemma dotStarThen_iff (k : List Char → Bool) (t : List Char) :
    dotStarThen k t = true ↔
      ∃ a r, t = a ++ r ∧ '\n' ∉ a ∧ k r = true := by
  induction t with
  | nil =>
    simp only [dotStarThen]
    constructor
    · intro h; exact ⟨[], [], rfl, by simp, h⟩
    · rintro ⟨a, r, h, -, hk⟩
      obtain ⟨rfl, rfl⟩ := List.append_eq_nil.mp h.symm
      exact hk
  | cons c cs ih =>
    simp only [dotStarThen, Bool.or_eq_true, Bool.and_eq_true, decide_eq_true_iff, ih]
    constructor
    · rintro (hk | ⟨hc, a, r, rfl, ha, hk⟩)
      · exact ⟨[], c :: cs, rfl, by simp, hk⟩
      · exact ⟨c :: a, r, rfl, by simp [ha, Ne.symm hc], hk⟩
    · rintro ⟨a, r, h, ha, hk⟩
      cases a with
      | nil => left; simpa using h ▸ hk
      | cons a0 a1 =>
        right
        obtain ⟨rfl, h1⟩ : c = a0 ∧ cs = a1 ++ r := List.cons_eq_cons.mp h
        exact ⟨fun hn => ha (by simp [hn]), a1, r, h1, fun hn => ha (by simp [hn]), hk⟩

lemma formatCore_iff (t : List Char) :
    formatCore t = true ↔
      ∃ a b tl, t = tagThink ++ a ++ tagMid ++ b ++ tagClose ++ tl ∧
        '\n' ∉ a ∧ '\n' ∉ b ∧ (tl = [] ∨ tl = ['\n']) := by
  unfold formatCore
  constructor
  · intro h
    cases h1 : stripPre tagThink t with
    | none => rw [h1] at h; exact absurd h (by simp)
    | some r1 =>
      rw [h1] at h
      obtain ⟨a, r2, rfl, ha, h2⟩ := (dotStarThen_iff _ _).mp h
      cases h3 : stripPre tagMid r2 with
      | none => rw [h3] at h2; exact absurd h2 (by simp)
      | some r3 =>
        rw [h3] at h2
        obtain ⟨b, r4, rfl, hb, h4⟩ := (dotStarThen_iff _ _).mp h2
        cases h5 : stripPre tagClose r4 with
        | none => rw [h5] at h4; exact absurd h4 (by simp)
        | some r5 =>
          rw [h5] at h4
          refine ⟨a, b, r5, ?_, ha, hb, ?_⟩
          · rw [stripPre_eq_some.mp h1, stripPre_eq_some.mp h3,
              stripPre_eq_some.mp h5]
            simp [List.append_assoc]
          · simpa [tailOk] using h4
  · rintro ⟨a, b, tl, rfl, ha, hb, htl⟩
    have h1 : stripPre tagThink
        (tagThink ++ a ++ tagMid ++ b ++ tagClose ++ tl) =
        some (a ++ (tagMid ++ (b ++ (tagClose ++ tl)))) :=
      stripPre_eq_some.mpr (by simp [List.append_assoc])
    rw [h1]
    rw [dotStarThen_iff]
    refine ⟨a, tagMid ++ (b ++ (tagClose ++ tl)), rfl, ha, ?_⟩
    have h3 : stripPre tagMid (tagMid ++ (b ++ (tagClose ++ tl))) =
        some (b ++ (tagClose ++ tl)) := stripPre_eq_some.mpr rfl
    rw [h3]
    rw [dotStarThen_iff]
    refine ⟨b, tagClose ++ tl, rfl, hb, ?_⟩
    have h5 : stripPre tagClose (tagClose ++ tl) = some tl :=
      stripPre_eq_some.mpr rfl
    rw [h5]
    simpa [tailOk] using htl

lemma formatBool_iff (s : String) : formatBool s = true ↔ formatSpec s :=
  formatCore_iff s.data

instance formatSpecDecidable : DecidablePred formatSpec := fun s =>
  decidable_of_iff (formatBool s = true) (formatBool_iff s)

lemma firstContents_eq_some {comps : List (List Message)} {cs : List String}
    (h : firstContents comps = some cs) :
    cs.length = comps.length ∧
      ∀ (i : ℕ) (c : List Message) (m : Message),
        comps[i]? = some c → c.head? = some m →
          cs[i]? = some m.content := by
  induction comps generalizing cs with
  | nil =>
    simp only [firstContents, Option.some.injEq] at h
    subst h
    refine ⟨rfl, ?_⟩
    intro i c m hc
    simp at hc
  | cons c0 cs0 ih =>
    rw [firstContents] at h
    cases hm0 : c0.head? with
    | none => rw [hm0] at h; exact absurd h (by simp)
    | some m0 =>
      rw [hm0] at h
      cases hrest : firstContents cs0 with
      | none => rw [hrest] at h; exact absurd h (by simp)
      | some rest =>
        rw [hrest] at h
        injection h with h
        subst h
        obtain ⟨hlen, hget⟩ := ih hrest
        refine ⟨by simp [hlen], ?_⟩
        intro i c m hc hm
        cases i with
        | zero =>
          simp only [List.getElem?_cons_zero, Option.some.injEq] at hc
          subst hc
          rw [hm0] at hm
          injection hm with hm
          subst hm
          simp
        | succ n =>
          simp only [List.getElem?_cons_succ] at hc ⊢
          exact hget n c m hc hm

lemma accStep_fst_of_parsed {E : Type} (O : Oracle E) (content sol : String)
    (hg : (O.parseGold sol).length ≠ 0) :
    (accStep O content sol).1 =
      if O.verify (O.parseAnswer content) (O.parseGold sol) then 1 else 0 := by
  simp [accStep, hg]

lemma accStep_fst_of_unparsed {E : Type} (O : Oracle E) (content sol : String)
    (hg : (O.parseGold sol).length = 0) :
    (accStep O content sol).1 = 1 := by
  simp [accStep, hg]

lemma accStep_snd_of_parsed {E : Type} (O : Oracle E) (content sol : String)
    (hg : (O.parseGold sol).length ≠ 0) :
    (accStep O content sol).2 = [] := by
  simp [accStep, hg]

lemma accStep_fst_mem {E : Type} (O : Oracle E) (content sol : String) :
    (accStep O content sol).1 = 0 ∨ (accStep O content sol).1 = 1 := by
  by_cases hg : (O.parseGold sol).length = 0
  · exact Or.inr (accStep_fst_of_unparsed O content sol hg)
  · rw [accStep_fst_of_parsed O content sol hg]
    by_cases hv : O.verify (O.parseAnswer content) (O.parseGold sol) <;>
      simp [hv]

lemma accLoop_fst_length {E : Type} (O : Oracle E)
    (ps : List (String × String)) :
    (accLoop O ps).1.length = ps.length := by
  induction ps with
  | nil => rfl
  | cons p ps ih => simp [accLoop, ih]

lemma accLoop_fst_getElem {E : Type} (O : Oracle E)
    (ps : List (String × String)) (i : ℕ) :
    (accLoop O ps).1[i]? = ps[i]?.map (fun p => (accStep O p.1 p.2).1) := by
  induction ps generalizing i with
  | nil => simp [accLoop]
  | cons p ps ih =>
    cases i with
    | zero => simp [accLoop]
    | succ n => simpa [accLoop] using ih n

lemma accLoop_fst_mem {E : Type} (O : Oracle E)
    (ps : List (String × String)) {x : ℚ}
    (hx : x ∈ (accLoop O ps).1) : x = 0 ∨ x = 1 := by
  induction ps with
  | nil => simp [accLoop] at hx
  | cons p ps ih =>
    simp only [accLoop, List.mem_cons] at hx
    rcases hx with hx | hx
    · subst hx; exact accStep_fst_mem O p.1 p.2
    · exact ih hx

lemma accLoop_snd_mem {E : Type} (O : Oracle E)
    (ps : List (String × String)) {line : String}
    (hl : line ∈ (accLoop O ps).2) :
    ∃ p ∈ ps, (O.parseGold p.2).length = 0 ∧
      line = "Failed to parse gold solution: " ++ " " ++ p.2 := by
  induction ps with
  | nil => simp [accLoop] at hl
  | cons p ps ih =>
    simp only [accLoop, List.mem_append] at hl
    rcases hl with hl | hl
    · by_cases hg : (O.parseGold p.2).length = 0
      · simp only [accStep, hg, ne_eq, not_true_eq_false, if_false,
          List.mem_singleton] at hl
        exact ⟨p, List.mem_cons_self p ps, hg, hl⟩
      · rw [accStep_snd_of_parsed O p.1 p.2 hg] at hl
        simp at hl
    · obtain ⟨q, hq, h0, hline⟩ := ih hl
      exact ⟨q, List.mem_cons_of_mem p hq, h0, hline⟩

lemma accLoop_snd_nil {E : Type} (O : Oracle E)
    (ps : List (String × String))
    (h : ∀ p ∈ ps, (O.parseGold p.2).length ≠ 0) :
    (accLoop O ps).2 = [] := by
  induction ps with
  | nil => rfl
  | cons p ps ih =>
    simp only [accLoop]
    rw [accStep_snd_of_parsed O p.1 p.2 (h p (List.mem_cons_self p ps)),
      ih (fun q hq => h q (List.mem_cons_of_mem p hq))]
    rfl

lemma newline_not_in_tags :
    '\n' ∉ tagThink ∧ '\n' ∉ tagMid ∧ '\n' ∉ tagClose := by decide

lemma tagClose_concat : tagClose = "</answer".data ++ ['>'] := by decide

/-- A content that is exactly tags around segments one of which holds a
newline cannot match: a matching decomposition would leave the newline
either inside a newline-free segment or as a trailing character, and
the content ends in `>`. -/
lemma formatBool_mid_newline {a b : List Char}
    (hab : '\n' ∈ a ∨ '\n' ∈ b) :
    formatBool ⟨tagThink ++ a ++ tagMid ++ b ++ tagClose⟩ = false := by
  cases hfb : formatBool ⟨tagThink ++ a ++ tagMid ++ b ++ tagClose⟩ with
  | false => rfl
  | true =>
    exfalso
    obtain ⟨a', b', tl', heq, ha', hb', htl'⟩ := (formatBool_iff _).mp hfb
    have heq' : tagThink ++ a ++ tagMid ++ b ++ tagClose =
        tagThink ++ a' ++ tagMid ++ b' ++ tagClose ++ tl' := heq
    have hmem : '\n' ∈ tagThink ++ a ++ tagMid ++ b ++ tagClose := by
      rcases hab with h | h <;> simp [List.mem_append, h]
    rcases htl' with rfl | rfl
    · rw [heq'] at hmem
      simp only [List.append_nil, List.mem_append] at hmem
      rcases hmem with (((h1 | h2) | h3) | h4) | h5
      · exact absurd h1 newline_not_in_tags.1
      · exact ha' h2
      · exact absurd h3 newline_not_in_tags.2.1
      · exact hb' h4
      · exact absurd h5 newline_not_in_tags.2.2
    · have h1 : (tagThink ++ a ++ tagMid ++ b ++ tagClose).getLast? =
          some '>' := by
        rw [tagClose_concat, show tagThink ++ a ++ tagMid ++ b ++
            ("</answer".data ++ ['>']) =
            (tagThink ++ a ++ tagMid ++ b ++ "</answer".data) ++ ['>'] by
          simp [List.append_assoc]]
        exact List.getLast?_concat _
      rw [heq', List.getLast?_concat] at h1
      exact absurd (Option.some.inj h1) (by decide)

/-- The `$` allowance: one trailing newline after `</answer>` still
matches. -/
lemma formatBool_trailing_newline {a b : List Char}
    (ha : '\n' ∉ a) (hb : '\n' ∉ b) :
    formatBool ⟨tagThink ++ a ++ tagMid ++ b ++ tagClose ++ ['\n']⟩ = true :=
  (formatBool_iff _).mpr ⟨a, b, ['\n'], rfl, ha, hb, Or.inr rfl⟩

lemma format_reward_singleton (role s : String) (kw : KW) :
    format_reward [[⟨role, s⟩]] kw =
      some [if formatBool s then (1 : ℚ) else 0] := rfl

/-! ## Claims -/

/-- C1: `format_reward` returns one reward per completion, and the i-th
reward is `1.0` exactly when the `content` of the first message of the
i-th completion matches `^<think>.*?</think><answer>.*?</answer>$`
under Python `re.match` semantics (the declarative `formatSpec`), and
`0.0` otherwise. -/
theorem C1_format_reward_matches (completions : List (List Message))
    (kwargs : KW) (r : List ℚ)
    (h : format_reward completions kwargs = some r) :
    r.length = completions.length ∧
      ∀ (i : ℕ) (c : List Message) (m : Message),
        completions[i]? = some c → c.head? = some m →
          r[i]? = some (if formatSpec m.content then (1 : ℚ) else 0) := by
  rw [format_reward] at h
  cases hfc : firstContents completions with
  | none => rw [hfc] at h; exact absurd h (by simp)
  | some cs =>
    rw [hfc] at h
    obtain rfl : (cs.map fun content => if formatBool content then (1 : ℚ) else 0) = r := by
      simpa using h
    obtain ⟨hlen, hget⟩ := firstContents_eq_some hfc
    constructor
    · simp [hlen]
    · intro i c m hc hm
      rw [List.getElem?_map, hget i c m hc hm]
      simp only [Option.map_some']
      congr 1
      have hiff := formatBool_iff m.content
      by_cases hs : formatSpec m.content
      · rw [if_pos hs, if_pos (hiff.mpr hs)]
      · rw [if_neg hs, if_neg (fun hb => hs (hiff.mp hb))]

/-- C1 witness: a concrete completion in the required format scores 1. -/
theorem C1_format_reward_matches_witness :
    ([1] : List ℚ)[0]? =
      some (if formatSpec "<think>a</think><answer>b</answer>" then (1 : ℚ)
        else 0) :=
  (C1_format_reward_matches
      [[⟨"assistant", "<think>a</think><answer>b</answer>"⟩]] [] [1] rfl).2
    0 [⟨"assistant", "<think>a</think><answer>b</answer>"⟩]
    ⟨"assistant", "<think>a</think><answer>b</answer>"⟩ rfl rfl

/-- C2: wherever the gold solution parses to a non-empty result, the
accuracy reward is `float(verify(answer_parsed, gold_parsed))`, with
the parser and verifier treated as an opaque oracle. -/
theorem C2_accuracy_reward_verifier {E : Type} (O : Oracle E)
    (completions : List (List Message)) (solution : List String)
    (kwargs : KW) (p : List ℚ × List String)
    (h : accuracy_reward O completions solution kwargs = some p)
    (i : ℕ) (c : List Message) (m : Message) (sol : String)
    (hc : completions[i]? = some c) (hm : c.head? = some m)
    (hs : solution[i]? = some sol)
    (hg : (O.parseGold sol).length ≠ 0) :
    p.1[i]? = some (if O.verify (O.parseAnswer m.content) (O.parseGold sol)
      then (1 : ℚ) else 0) := by
  rw [accuracy_reward] at h
  cases hfc : firstContents completions with
  | none => rw [hfc] at h; exact absurd h (by simp)
  | some cs =>
    rw [hfc] at h
    obtain rfl : accLoop O (cs.zip solution) = p := by simpa using h
    obtain ⟨hlen, hget⟩ := firstContents_eq_some hfc
    have hzip : (cs.zip solution)[i]? = some (m.content, sol) :=
      List.getElem?_zip_eq_some.mpr ⟨hget i c m hc hm, hs⟩
    rw [accLoop_fst_getElem, hzip]
    simp only [Option.map_some']
    rw [accStep_fst_of_parsed O m.content sol hg]

/-- C2 witness: with an oracle that parses everything and always
verifies, a concrete pair scores `1`. -/
theorem C2_accuracy_reward_verifier_witness :
    (([1], ([] : List String)) : List ℚ × List String).1[0]? =
      some (if oracleYes.verify (oracleYes.parseAnswer "x")
          (oracleYes.parseGold "s") then (1 : ℚ) else 0) :=
  C2_accuracy_reward_verifier oracleYes [[⟨"assistant", "x"⟩]] ["s"] []
    ([1], []) rfl 0 [⟨"assistant", "x"⟩] ⟨"assistant", "x"⟩ "s" rfl rfl rfl
    (by decide)

/-- C3 counterexample: `accuracy_reward` is not free of output — when
the gold solution fails to parse it prints a diagnostic line. -/
theorem C3_accuracy_reward_prints :
    accuracy_reward oracleNoParse [[⟨"assistant", "x"⟩]] ["s"] [] =
      some ([1], ["Failed to parse gold solution: " ++ " " ++ "s"]) ∧
    ("Failed to parse gold solution: " ++ " " ++ "s" : String) ≠ "" := by
  constructor
  · rfl
  · decide

/-- C3 (amended): both reward functions mutate nothing and are pure up
to `accuracy_reward`'s diagnostic print: every line it prints reports a
gold solution that failed to parse, and when all gold solutions parse
it prints nothing (and `format_reward` never prints). -/
theorem C3_output_only_unparseable_gold {E : Type} (O : Oracle E)
    (completions : List (List Message)) (solution : List String)
    (kwargs : KW) (p : List ℚ × List String)
    (h : accuracy_reward O completions solution kwargs = some p) :
    (∀ line ∈ p.2, ∃ sol ∈ solution, (O.parseGold sol).length = 0 ∧
      line = "Failed to parse gold solution: " ++ " " ++ sol) ∧
    ((∀ sol ∈ solution, (O.parseGold sol).length ≠ 0) → p.2 = []) := by
  rw [accuracy_reward] at h
  cases hfc : firstContents completions with
  | none => rw [hfc] at h; exact absurd h (by simp)
  | some cs =>
    rw [hfc] at h
    obtain rfl : accLoop O (cs.zip solution) = p := by simpa using h
    constructor
    · intro line hl
      obtain ⟨q, hq, h0, hline⟩ := accLoop_snd_mem O _ hl
      exact ⟨q.2, (List.of_mem_zip hq).2, h0, hline⟩
    · intro hall
      exact accLoop_snd_nil O _ (fun q hq => hall q.2 (List.of_mem_zip hq).2)

/-- C3 (amended) witness: with a fully-parsing oracle nothing is
printed. -/
theorem C3_output_only_unparseable_gold_witness :
    (([1], ([] : List String)) : List ℚ × List String).2 = [] :=
  (C3_output_only_unparseable_gold oracleYes [[⟨"assistant", "x"⟩]] ["s"] []
      ([1], []) rfl).2 (by decide)

/-- C4: `main` performs dataset load, prompt reformatting, trainer
construction, training and model save in this fixed order; in
particular every save event comes strictly after every train event. -/
theorem C4_main_stage_order {E D T A : Type} (O : Oracle E)
    (env : TrainEnv D T)
    (compiled_model_path dataset_name model_output_dir : String)
    (reward_types : List String) (training_args : A)
    (res : List RewardFn × T × List Event)
    (h : mainFn O env compiled_model_path dataset_name model_output_dir
      reward_types training_args = some res) :
    res.2.2 = [Event.loadDataset dataset_name, Event.mapConversation,
      Event.initTrainer, Event.train, Event.saveModel model_output_dir] ∧
    ∀ i j : ℕ, res.2.2[i]? = some Event.train →
      res.2.2[j]? = some (Event.saveModel model_output_dir) → i < j := by
  rw [mainFn] at h
  cases hsel : selectRewardFuncs O reward_types with
  | none => rw [hsel] at h; exact absurd h (by simp)
  | some fns =>
    rw [hsel] at h
    injection h with h
    subst h
    refine ⟨rfl, ?_⟩
    intro i j hi hj
    have hi5 : i < 5 := (List.getElem?_eq_some_iff.mp hi).1
    have hj5 : j < 5 := (List.getElem?_eq_some_iff.mp hj).1
    interval_cases i <;> interval_cases j <;> first | omega | simp_all

/-- C4 witness at a concrete environment: the trace of a successful run
is exactly the five pipeline stages. -/
theorem C4_main_stage_order_witness :
    ((([] : List RewardFn), (),
        [Event.loadDataset "d", Event.mapConversation, Event.initTrainer,
         Event.train, Event.saveModel "o"]) :
      List RewardFn × Unit × List Event).2.2 =
      [Event.loadDataset "d", Event.mapConversation, Event.initTrainer,
       Event.train, Event.saveModel "o"] :=
  (C4_main_stage_order oracleYes envUnit "m" "d" "o" [] () _ rfl).1

/-- C5: after `dataset.map(make_conversation)`, every row's prompt is
exactly the system message carrying `SYSTEM_PROMPT` followed by the
user message carrying the row's `problem` field. -/
theorem C5_prompt_shape (ds : List RawExample) (i : ℕ) (e : RawExample)
    (h : ds[i]? = some e) :
    (datasetMapConversation ds)[i]? =
      some ⟨e, [⟨"system", SYSTEM_PROMPT⟩, ⟨"user", e.problem⟩]⟩ := by
  rw [datasetMapConversation, List.getElem?_map, h]
  rfl

/-- C5 witness on a one-row dataset. -/
theorem C5_prompt_shape_witness :
    (datasetMapConversation [⟨"p", "s"⟩])[0]? =
      some ⟨⟨"p", "s"⟩, [⟨"system", SYSTEM_PROMPT⟩, ⟨"user", "p"⟩]⟩ :=
  C5_prompt_shape [⟨"p", "s"⟩] 0 ⟨"p", "s"⟩ rfl

/-- C6: the registry holds exactly the keys `accuracy` and `format`,
bound to the two locally-implemented reward functions, and the
selection loop of `main` keeps the order of `reward_types`. -/
theorem C6_registry_exact {E : Type} (O : Oracle E) :
    reward_funcs_registry O "accuracy" = some (accuracy_reward O) ∧
    reward_funcs_registry O "format" = some format_reward_fn ∧
    (∀ key : String, key ≠ "accuracy" → key ≠ "format" →
      reward_funcs_registry O key = none) ∧
    (∀ types : List String,
      (∀ t ∈ types, t = "accuracy" ∨ t = "format") →
      selectRewardFuncs O types = some (types.map
        (fun t => if t = "accuracy" then accuracy_reward O
          else format_reward_fn))) := by
  refine ⟨rfl, ?_, ?_, ?_⟩
  · rw [reward_funcs_registry, if_neg (by decide), if_pos rfl]
  · intro key h1 h2
    rw [reward_funcs_registry, if_neg h1, if_neg h2]
  · intro types hall
    induction types with
    | nil => rfl
    | cons t ts ih =>
      have hts := ih (fun q hq => hall q (List.mem_cons_of_mem t hq))
      rcases hall t (List.mem_cons_self t ts) with rfl | rfl
      · have hstep : selectRewardFuncs O ("accuracy" :: ts) =
            match selectRewardFuncs O ts with
            | none => none
            | some rest => some (accuracy_reward O :: rest) := rfl
        rw [hstep, hts]
        rfl
      · have hstep : selectRewardFuncs O ("format" :: ts) =
            match selectRewardFuncs O ts with
            | none => none
            | some rest => some (format_reward_fn :: rest) := rfl
        rw [hstep, hts]
        rfl

/-- C6 witness: selecting `["accuracy", "format"]` yields the two
functions in that order. -/
theorem C6_registry_exact_witness :
    selectRewardFuncs oracleYes ["accuracy", "format"] =
      some (["accuracy", "format"].map
        (fun t => if t = "accuracy" then accuracy_reward oracleYes
          else format_reward_fn)) :=
  (C6_registry_exact oracleYes).2.2.2 ["accuracy", "format"] (by decide)

/-- C7: `format_reward` is deterministic and depends only on the
first-message contents: two completion lists with pointwise-equal first
contents, under arbitrary (even different) kwargs, get identical reward
lists. -/
theorem C7_format_reward_two_run
    (completions completions' : List (List Message)) (kw kw' : KW)
    (h : firstContents completions = firstContents completions') :
    format_reward completions kw = format_reward completions' kw' := by
  rw [format_reward, format_reward, h]

/-- C7 witness: roles, extra messages and kwargs all differ, first
contents agree, rewards agree. -/
theorem C7_format_reward_two_run_witness :
    format_reward [[⟨"assistant", "hello"⟩, ⟨"user", "extra"⟩]]
        [("solution", "s")] =
      format_reward [[⟨"system", "hello"⟩]] [] :=
  C7_format_reward_two_run _ _ _ _ rfl

/-- C8: when the gold solution parses to an empty result, the pair
scores `1.0` no matter what the completion contains. -/
theorem C8_unparseable_gold_scores_one {E : Type} (O : Oracle E)
    (completions : List (List Message)) (solution : List String)
    (kwargs : KW) (p : List ℚ × List String)
    (h : accuracy_reward O completions solution kwargs = some p)
    (i : ℕ) (c : List Message) (m : Message) (sol : String)
    (hc : completions[i]? = some c) (hm : c.head? = some m)
    (hs : solution[i]? = some sol)
    (hg : (O.parseGold sol).length = 0) :
    p.1[i]? = some (1 : ℚ) := by
  rw [accuracy_reward] at h
  cases hfc : firstContents completions with
  | none => rw [hfc] at h; exact absurd h (by simp)
  | some cs =>
    rw [hfc] at h
    obtain rfl : accLoop O (cs.zip solution) = p := by simpa using h
    obtain ⟨hlen, hget⟩ := firstContents_eq_some hfc
    have hzip : (cs.zip solution)[i]? = some (m.content, sol) :=
      List.getElem?_zip_eq_some.mpr ⟨hget i c m hc hm, hs⟩
    rw [accLoop_fst_getElem, hzip]
    simp only [Option.map_some']
    rw [accStep_fst_of_unparsed O m.content sol hg]

/-- C8 witness: an always-failing gold parser still scores `1`. -/
theorem C8_unparseable_gold_scores_one_witness :
    (([1], ["Failed to parse gold solution: " ++ " " ++ "s"]) :
        List ℚ × List String).1[0]? = some (1 : ℚ) :=
  C8_unparseable_gold_scores_one oracleNoParse [[⟨"assistant", "x"⟩]]
    ["s"] [] ([1], ["Failed to parse gold solution: " ++ " " ++ "s"]) rfl
    0 [⟨"assistant", "x"⟩] ⟨"assistant", "x"⟩ "s" rfl rfl rfl (by decide)

/-- C9: every reward is 0 or 1; `format_reward` returns one entry per
completion, `accuracy_reward` one entry per zipped pair, i.e. the
shorter of the two input lists, silently dropping unpaired tails. -/
theorem C9_reward_shapes :
    (∀ (E : Type) (O : Oracle E) (completions : List (List Message))
      (solution : List String) (kwargs : KW) (p : List ℚ × List String),
      accuracy_reward O completions solution kwargs = some p →
      p.1.length = min completions.length solution.length ∧
        ∀ x ∈ p.1, x = 0 ∨ x = 1) ∧
    (∀ (completions : List (List Message)) (kwargs : KW) (r : List ℚ),
      format_reward completions kwargs = some r →
      r.length = completions.length ∧ ∀ x ∈ r, x = 0 ∨ x = 1) := by
  constructor
  · intro E O completions solution kwargs p h
    rw [accuracy_reward] at h
    cases hfc : firstContents completions with
    | none => rw [hfc] at h; exact absurd h (by simp)
    | some cs =>
      rw [hfc] at h
      obtain rfl : accLoop O (cs.zip solution) = p := by simpa using h
      obtain ⟨hlen, -⟩ := firstContents_eq_some hfc
      refine ⟨?_, fun x hx => accLoop_fst_mem O _ hx⟩
      rw [accLoop_fst_length, List.length_zip, hlen]
  · intro completions kwargs r h
    rw [format_reward] at h
    cases hfc : firstContents completions with
    | none => rw [hfc] at h; exact absurd h (by simp)
    | some cs =>
      rw [hfc] at h
      obtain rfl :
          (cs.map fun content => if formatBool content then (1 : ℚ) else 0) =
            r := by simpa using h
      obtain ⟨hlen, -⟩ := firstContents_eq_some hfc
      refine ⟨by simp [hlen], ?_⟩
      intro x hx
      simp only [List.mem_map] at hx
      obtain ⟨content, -, rfl⟩ := hx
      by_cases hb : formatBool content <;> simp [hb]

/-- C9 witness on one-element inputs for both reward functions. -/
theorem C9_reward_shapes_witness :
    (([1] : List ℚ).length = min 1 1 ∧ ((1 : ℚ) = 0 ∨ (1 : ℚ) = 1)) ∧
    (([0] : List ℚ).length = 1 ∧ ((0 : ℚ) = 0 ∨ (0 : ℚ) = 1)) := by
  have h1 := C9_reward_shapes.1 Unit oracleYes [[⟨"assistant", "x"⟩]] ["s"]
    [] ([1], []) rfl
  have h2 := C9_reward_shapes.2 [[⟨"assistant", "x"⟩]] [] [0] rfl
  exact ⟨⟨h1.1, h1.2 1 (by decide)⟩, ⟨h2.1, h2.2 0 (by decide)⟩⟩

/-- C10: a newline inside either lazy-dot segment makes `format_reward`
score 0 (the pattern's `.` does not match newlines and `re.DOTALL` is
not set), while a single newline trailing `</answer>` still scores 1
(`$` matches before a final newline). -/
theorem C10_newline_handling (role : String) (kw : KW) :
    (∀ a b : List Char, ('\n' ∈ a ∨ '\n' ∈ b) →
      format_reward
          [[⟨role, ⟨tagThink ++ a ++ tagMid ++ b ++ tagClose⟩⟩]] kw =
        some [0]) ∧
    (∀ a b : List Char, '\n' ∉ a → '\n' ∉ b →
      format_reward
          [[⟨role, ⟨tagThink ++ a ++ tagMid ++ b ++ tagClose ++ ['\n']⟩⟩]]
          kw =
        some [1]) := by
  constructor
  · intro a b hab
    rw [format_reward_singleton, formatBool_mid_newline hab]
    rfl
  · intro a b ha hb
    rw [format_reward_singleton, formatBool_trailing_newline ha hb]
    rfl

/-- C10 witness: a newline inside `<think>…</think>` scores 0; a
trailing newline after `</answer>` scores 1. -/
theorem C10_newline_handling_witness :
    (format_reward [[⟨"assistant",
        ⟨tagThink ++ ['\n'] ++ tagMid ++ [] ++ tagClose⟩⟩]] [] =
      some [0]) ∧
    (format_reward [[⟨"assistant",
        ⟨tagThink ++ ['a'] ++ tagMid ++ ['b'] ++ tagClose ++ ['\n']⟩⟩]] [] =
      some [1]) :=
  ⟨(C10_newline_handling "assistant" []).1 ['\n'] [] (by decide),
   (C10_newline_handling "assistant" []).2 ['a'] ['b'] (by decide)
     (by decide)⟩
